import Mathlib

/-
Formal model of the entity-graph and formatting core of sunlesssea.py
(a tool for Sunless Sea data dumps).  Python dictionaries keyed by integer
ids are modelled as association lists with Python dict update semantics,
machine integers as Int, fallible constructors as Except, and the
substitution engine for bracketed reference tokens as an executable
scanner over lists of characters.
-/

namespace SunlessSea

/-- Exact integer ceiling division: the value of int(math.ceil(a / b)) when
the float division is exact.  For b different from 0 this is the ceiling of
the rational a / b, computed as the negated floor division of the negation. -/
def ceilDiv (a b : Int) : Int := -(Int.fdiv (-a) b)

/-- Model of class Quality (sunlesssea.py lines 464-530): only the fields the
formatting and lookup logic reads.  Defaults from Quality.__init__ are
Name missing -> empty string, Category 0, DifficultyScaler 0. -/
structure Quality where
  id : Int
  name : String
  category : Int
  difficultyscaler : Int
deriving DecidableEq

/-- Quality.__unicode__ (Entity.__unicode__, line 455-456): the name when it is
non-empty, else the repr form from Entity.__repr__ for a nameless entity. -/
def Quality.ustr (q : Quality) : String :=
  if q.name ≠ "" then q.name else "<Quality " ++ toString q.id ++ ">"

/-- The dummy Quality built by QualityOperator.__init__ lines 758-760:
Quality(data= dict with Id qid and Name empty). -/
def mkDummyQuality (qid : Int) : Quality :=
  { id := qid, name := "", category := 0, difficultyscaler := 0 }

/-- Lines 753-760 of QualityOperator.__init__: look the AssociatedQuality id up
in ss.qualities; when the lookup fails, substitute the dummy Quality. -/
def resolveQuality (lookup : Int → Option Quality) (qid : Int) : Quality :=
  match lookup qid with
  | some q => q
  | none => mkDummyQuality qid

/-- Python dict assignment d[k] = v on an association list: an existing binding
is overwritten in place (insertion order kept), a new key is appended. -/
def dictInsert {α : Type} : List (Int × α) → Int → α → List (Int × α)
  | [], k, v => [(k, v)]
  | (k', v') :: rest, k, v =>
    if k' = k then (k, v) :: rest else (k', v') :: dictInsert rest k v

/-- Python dict.get(k) with default None on an association list. -/
def dictGet {α : Type} : List (Int × α) → Int → Option α
  | [], _ => none
  | (k', v) :: rest, k => if k' = k then some v else dictGet rest k

/-- Character class [^][] of the _re_adv regular expression (line 275). -/
def isNonBracket (c : Char) : Bool := c ≠ '[' && c ≠ ']'

/-- Character class [a-z] of the _re_adv regular expression (line 275). -/
def isLowerAlpha (c : Char) : Bool := 'a' ≤ c && c ≤ 'z'

/-- Greedy parse of the value group (?:[^][]+|\[[^][]+])+ of _re_adv: repeated
chunks, each either a maximal nonempty run of non-bracket characters or a
bracketed nonempty run of non-bracket characters.  Returns the consumed value
characters and the rest of the input.  The fuel bounds the recursion; each
step consumes at least one character, so fuel = input length is enough. -/
def parseRepsAux : Nat → List Char → List Char × List Char
  | 0, cs => ([], cs)
  | fuel + 1, cs =>
    match cs with
    | [] => ([], [])
    | c :: rest =>
      if c = '[' then
        let run := rest.takeWhile isNonBracket
        let rest2 := rest.dropWhile isNonBracket
        match run, rest2 with
        | _ :: _, ']' :: rest3 =>
          let p := parseRepsAux fuel rest3
          ('[' :: (run ++ (']' :: p.1)), p.2)
        | _, _ => ([], cs)
      else if c = ']' then ([], cs)
      else
        let run := cs.takeWhile isNonBracket
        let rest2 := cs.dropWhile isNonBracket
        let p := parseRepsAux fuel rest2
        (run ++ p.1, p.2)

/-- One match of _re_adv: the whole matched token (match.group()), the key
character and the value characters (match.group(key, value)). -/
structure AdvMatch where
  str : List Char
  key : Char
  val : List Char
deriving DecidableEq

/-- Try to match _re_adv at the head of the input:
bracket, one [a-z] key, a colon, the nonempty value group, closing bracket.
Returns the match and the remaining input after it. -/
def matchAt (cs : List Char) : Option (AdvMatch × List Char) :=
  match cs with
  | '[' :: k :: ':' :: rest =>
    if isLowerAlpha k then
      let p := parseRepsAux rest.length rest
      match p.1, p.2 with
      | v@(_ :: _), ']' :: rest2 =>
        some (⟨'[' :: k :: ':' :: (v ++ [']']), k, v⟩, rest2)
      | _, _ => none
    else none
  | _ => none

/-- re.finditer(_re_adv, text): scan left to right, at each position try a
match; a successful match is consumed (non-overlapping), otherwise move one
character.  Each step consumes at least one character, so fuel = length. -/
def findMatchesAux : Nat → List Char → List AdvMatch
  | 0, _ => []
  | fuel + 1, cs =>
    match cs with
    | [] => []
    | _ :: rest =>
      match matchAt cs with
      | some (m, after) => m :: findMatchesAux fuel after
      | none => findMatchesAux fuel rest

/-- All non-overlapping matches of _re_adv in the text, left to right. -/
def findMatches (cs : List Char) : List AdvMatch := findMatchesAux cs.length cs

/-- Bool test that pat is a prefix of the second list. -/
def listStartsWith : List Char → List Char → Bool
  | [], _ => true
  | _ :: _, [] => false
  | p :: ps, c :: cs => p = c && listStartsWith ps cs

/-- Python str.replace(pat, sub, 1): replace the first occurrence only. -/
def replace1 : List Char → List Char → List Char → List Char
  | [], _, _ => []
  | c :: rest, pat, sub =>
    if listStartsWith pat (c :: rest) then sub ++ (c :: rest).drop pat.length
    else c :: replace1 rest pat sub

/-- The caller-supplied format templates of Entity._parse_adv (line 377) and
the quality registry: qfmt renders a Quality found by id, dfmt wraps a dice
roll, noqfmt renders an unresolved quality id, qnamefmt renders a quality
referenced by name (no lookup).  The registry lookup also models the
guard `self.ss and self.ss.qualities` (a missing registry always misses). -/
structure AdvCtx where
  lookup : Int → Option Quality
  qfmt : Quality → List Char
  dfmt : List Char → List Char
  noqfmt : List Char → List Char
  qnamefmt : List Char → List Char

/-- Python str.isdigit for ASCII digits: nonempty and all digits. -/
def pyIsDigit (v : List Char) : Bool := !v.isEmpty && v.all Char.isDigit

/-- int(value) for a digit string. -/
def digitsToInt (v : List Char) : Int :=
  v.foldl (fun n c => n * 10 + Int.ofNat (c.toNat - 48)) 0

/-- The substitution computed for one matched token by _parse_adv lines
414-437, parameterised over the recursive interpreter used for the nested
dice-roll value.  The result none models subst = None (unknown key). -/
def tokenSubstCore (interp : List Char → List Char) (ctx : AdvCtx)
    (k : Char) (v : List Char) : Option (List Char) :=
  if k = 'q' then
    if pyIsDigit v then
      match ctx.lookup (digitsToInt v) with
      | some q => some (ctx.qfmt q)
      | none => some (ctx.noqfmt v)
    else some (ctx.qnamefmt v)
  else if k = 'd' then some (ctx.dfmt (interp v))
  else none

/-- Entity._parse_adv lines 407-442: fold over all matches of _re_adv in the
original text; a token whose substitution is Some non-empty string replaces
the first occurrence of its matched text in the running result (the guard
`if subst:` in line 439 skips None and the empty string).  The fuel bounds
the nesting depth of [d:...] recursion; nesting depth is at most the length
of the text, so text.length + 1 is enough. -/
def parseAdvAux : Nat → AdvCtx → List Char → List Char
  | 0, _, text => text
  | fuel + 1, ctx, text =>
    (findMatches text).foldl
      (fun result m =>
        match tokenSubstCore (parseAdvAux fuel ctx) ctx m.key m.val with
        | some s => if s.isEmpty then result else replace1 result m.str s
        | none => result)
      text

/-- The substitution for one token as computed inside parseAdvAux (fuel + 1). -/
def tokenSubst (fuel : Nat) (ctx : AdvCtx) (k : Char) (v : List Char) :
    Option (List Char) :=
  tokenSubstCore (parseAdvAux fuel ctx) ctx k v

/-- Entity._parse_adv on a whole text. -/
def parseAdv (ctx : AdvCtx) (text : List Char) : List Char :=
  parseAdvAux (text.length + 1) ctx text

/-- The operator mapping of a Requirement, restricted to Requirement._OPS
(lines 928-935); every other key of the raw mapping is either in _HIDE_OP
(filtered out at line 978) or never visited by the loop over _OPS. -/
structure ReqOps where
  DifficultyLevel : Option Int
  DifficultyAdvanced : Option (List Char)
  MinLevel : Option Int
  MinAdvanced : Option (List Char)
  MaxLevel : Option Int
  MaxAdvanced : Option (List Char)
deriving DecidableEq

/-- The _parse_adv call of Requirement._format.add (lines 971-976) with the
advanced formats advfmtq = bracketed quality string and advfmtd = dice
format, and the default noqfmt and qnamefmt of _parse_adv. -/
def reqAdvCtx (lookup : Int → Option Quality) : AdvCtx :=
  { lookup := lookup
  , qfmt := fun q => '[' :: ((Quality.ustr q).toList ++ [']'])
  , dfmt := fun s => "[1 to ".toList ++ (s ++ [']'])
  , noqfmt := fun v => "[Quality(".toList ++ (v ++ ")]".toList)
  , qnamefmt := fun v => "\x7b".toList ++ (v ++ "\x7d".toList) }

/-- Advanced operator value rendered through _parse_adv as in
Requirement._format. -/
def parseAdvReq (lookup : Int → Option Quality) (s : List Char) : List Char :=
  parseAdv (reqAdvCtx lookup) s

/-- Clause format minfmt of Requirement._format (line 963). -/
def minfmt (v : Int) : String := "≥ " ++ toString v

/-- Clause format maxfmt of Requirement._format (line 964). -/
def maxfmt (v : Int) : String := "≤ " ++ toString v

/-- Clause format eqfmt of Requirement._format (line 965). -/
def eqfmt (v : Int) : String := "= " ++ toString v

/-- Clause format adjfmt of Requirement._format (line 966). -/
def adjfmt (v1 v2 : Int) : String :=
  "= " ++ toString v1 ++ " or " ++ toString v2

/-- minfmt applied to an advanced (already parsed) value. -/
def minfmtS (s : List Char) : String := "≥ " ++ String.mk s

/-- maxfmt applied to an advanced (already parsed) value. -/
def maxfmtS (s : List Char) : String := "≤ " ++ String.mk s

/-- eqfmt applied to an advanced (already parsed) value. -/
def eqfmtS (s : List Char) : String := "= " ++ String.mk s

/-- Which main format string Requirement._format ends with: fmt (plain,
the default of the fmt parameter), fmtcha (difficulty challenge),
fmtchaluck (luck challenge) or fmtchaadv (advanced challenge).  The value
the chosen format renders is NOT part of this choice: it is the separate
`value` local variable, reassigned by every visited operator. -/
inductive MainFmt where
  | plain : MainFmt
  | cha : MainFmt
  | chaluck : MainFmt
  | chaadv : MainFmt
deriving DecidableEq

/-- The Python local variable `value` of Requirement._format: an int for the
plain operators (and for the converted difficulty), a string for the
advanced operators. -/
inductive PyVal where
  | int : Int → PyVal
  | str : List Char → PyVal
deriving DecidableEq

/-- Rendering of the `value` variable by str.format: decimal for an int,
the string itself for a string. -/
def pyValStr : PyVal → String
  | PyVal.int v => toString v
  | PyVal.str s => String.mk s

/-- The operator loop of Requirement._format (lines 983-1034): visits the
codes in _OPS order (DifficultyLevel, DifficultyAdvanced, MinLevel,
MinAdvanced, MaxLevel, MaxAdvanced), skipping the absent ones.  Every
visited operator first reassigns the local `value` (line 988,
value = ops[op]), so the value the final format renders is the one left by
the LAST visited operator; `value` stays unassigned (none) when no _OPS
code is present.  DifficultyLevel overwrites `value` with the converted
value and selects fmtchaluck (luck quality, category 2000, value
50 - value * difficultyscaler) or fmtcha (other quality, value
ceil(100 * value / difficultyscaler) when both value and scaler are
non-zero, else the raw value); DifficultyAdvanced selects fmtchaadv and
overwrites `value` with the parsed advanced string.  MinLevel emits its
clause with look-ahead on MaxLevel (equal values collapse to eqfmt and pop
MaxLevel, max = min + 1 collapses to adjfmt and pops MaxLevel, else a
standalone minfmt clause) and leaves `value` at its raw int; a popped
MaxLevel is skipped entirely by the later iteration (neither clause nor
reassignment).  MinAdvanced does the equal-value look-ahead on MaxAdvanced
the same way, leaving `value` at the raw advanced string.  Returns the
selected main format, the final `value`, and the clause strings in
emission order. -/
def reqFormatCore (lookup : Int → Option Quality) (q : Quality)
    (ops : ReqOps) : MainFmt × Option PyVal × List String :=
  let st1 : MainFmt × Option PyVal :=
    match ops.DifficultyLevel with
    | none => (MainFmt.plain, none)
    | some v =>
      if q.category = 2000 then
        (MainFmt.chaluck, some (PyVal.int (50 - v * q.difficultyscaler)))
      else
        (MainFmt.cha, some (PyVal.int
          (if v ≠ 0 ∧ q.difficultyscaler ≠ 0 then
            ceilDiv (100 * v) q.difficultyscaler
          else v)))
  let st2 : MainFmt × Option PyVal :=
    match ops.DifficultyAdvanced with
    | none => st1
    | some s => (MainFmt.chaadv, some (PyVal.str (parseAdvReq lookup s)))
  let minPart : List String × Bool :=
    match ops.MinLevel with
    | none => ([], false)
    | some v =>
      match ops.MaxLevel with
      | none => ([minfmt v], false)
      | some mx =>
        if mx = v then ([eqfmt v], true)
        else if mx = v + 1 then ([adjfmt v mx], true)
        else ([minfmt v], false)
  let val3 : Option PyVal :=
    match ops.MinLevel with
    | none => st2.2
    | some v => some (PyVal.int v)
  let minAdvPart : List String × Bool :=
    match ops.MinAdvanced with
    | none => ([], false)
    | some s =>
      match ops.MaxAdvanced with
      | none => ([minfmtS (parseAdvReq lookup s)], false)
      | some mxs =>
        if mxs = s then ([eqfmtS (parseAdvReq lookup s)], true)
        else ([minfmtS (parseAdvReq lookup s)], false)
  let val4 : Option PyVal :=
    match ops.MinAdvanced with
    | none => val3
    | some s => some (PyVal.str s)
  let maxPart : List String :=
    match ops.MaxLevel with
    | none => []
    | some mx => if minPart.2 then [] else [maxfmt mx]
  let val5 : Option PyVal :=
    match ops.MaxLevel with
    | none => val4
    | some mx => if minPart.2 then val4 else some (PyVal.int mx)
  let maxAdvPart : List String :=
    match ops.MaxAdvanced with
    | none => []
    | some s => if minAdvPart.2 then [] else [maxfmtS (parseAdvReq lookup s)]
  let val6 : Option PyVal :=
    match ops.MaxAdvanced with
    | none => val5
    | some s => if minAdvPart.2 then val5 else some (PyVal.str s)
  (st2.1, val6, minPart.1 ++ minAdvPart.1 ++ maxPart ++ maxAdvPart)

/-- The final fmt.format(value, ...) of Requirement._format (lines
1036-1042): the argument `value` is evaluated before the call, so when no
_OPS code was visited the program raises UnboundLocalError (modelled as
Except.error) whatever the selected format; otherwise the chosen format
renders the quality string, the final `value` where the format has a
positional slot, and the clauses joined by opsep, with sep and opsep empty
when there is no clause. -/
def reqFormat (lookup : Int → Option Quality) (q : Quality)
    (ops : ReqOps) : Except String String :=
  let r := reqFormatCore lookup q ops
  match r.2.1 with
  | none => Except.error "UnboundLocalError: value"
  | some v =>
    let opsStr := String.intercalate " and " r.2.2
    Except.ok
      (match r.1 with
       | MainFmt.plain =>
         Quality.ustr q ++ (if r.2.2.isEmpty then "" else " ") ++ opsStr
       | MainFmt.cha =>
         Quality.ustr q ++ " challenge (" ++ pyValStr v ++ " for 100%)" ++
           (if r.2.2.isEmpty then "" else " and ") ++ opsStr
       | MainFmt.chaluck =>
         Quality.ustr q ++ " challenge (" ++ pyValStr v ++ "%)" ++
           (if r.2.2.isEmpty then "" else " and ") ++ opsStr
       | MainFmt.chaadv =>
         Quality.ustr q ++ " challenge: (" ++ pyValStr v ++ ")*100/" ++
           toString q.difficultyscaler ++
           (if r.2.2.isEmpty then "" else " and ") ++ opsStr)

/-- Action._OUTCOME_TYPES (lines 1260-1263): the fixed priority order of the
four outcome slots. -/
def OUTCOME_TYPES : List String :=
  ["DefaultEvent", "RareDefaultEvent", "SuccessEvent", "RareSuccessEvent"]

/-- Model of an Action as built by Action.__init__ lines 1287-1303 from the
keys present in its JSON record: canfail is the presence of the
SuccessEvent key; outcomes holds one slot name per present key, in
_OUTCOME_TYPES order (the loop iterates _OUTCOME_TYPES and filters by
presence in the record). -/
structure ActionModel where
  canfail : Bool
  outcomes : List String
deriving DecidableEq

/-- Action.__init__ restricted to the record key set. -/
def mkAction (keys : List String) : ActionModel :=
  { canfail := keys.contains "SuccessEvent"
  , outcomes := OUTCOME_TYPES.filter (fun t => keys.contains t) }

/-- Model of a Requirement object: the resolved (or dummy) quality and the
operator mapping. -/
structure RequirementModel where
  quality : Quality
  ops : ReqOps
deriving DecidableEq

/-- Model of an Effect object: only the resolved quality is needed here. -/
structure EffectModel where
  quality : Quality
deriving DecidableEq

/-- One entry of QualitiesRequired / QualitiesAffected: the
AssociatedQuality id plus the operator mapping. -/
structure QualOpData where
  AssociatedQualityId : Int
  ops : ReqOps
deriving DecidableEq

/-- Requirement construction (QualityOperator.__init__ lines 745-763). -/
def Requirement.init (lookup : Int → Option Quality) (d : QualOpData) :
    RequirementModel :=
  { quality := resolveQuality lookup d.AssociatedQualityId, ops := d.ops }

/-- Effect construction (QualityOperator.__init__ lines 745-763). -/
def Effect.init (lookup : Int → Option Quality) (d : QualOpData) :
    EffectModel :=
  { quality := resolveQuality lookup d.AssociatedQualityId }

/-- The JSON record of an Event, keeping the fields Event.__init__ reads:
Id, ChildBranches (each action given by its key set), QualitiesRequired and
QualitiesAffected.  An absent key is none. -/
structure EventData where
  Id : Int
  ChildBranches : Option (List (List String))
  QualitiesRequired : Option (List QualOpData)
  QualitiesAffected : Option (List QualOpData)
deriving DecidableEq

/-- Model of a constructed Event. -/
structure EventModel where
  id : Int
  requirements : List RequirementModel
  effects : List EffectModel
  actions : List ActionModel
deriving DecidableEq

/-- Event.__init__ (lines 1157-1178).  _create_qualops (line 1115-1126) reads
self._data[key] unguarded for key QualitiesRequired then QualitiesAffected,
so a record missing either raises KeyError (modelled as Except.error);
ChildBranches is read with .get and an empty default (line 1177). -/
def Event.init (lookup : Int → Option Quality) (d : EventData) :
    Except String EventModel :=
  match d.QualitiesRequired with
  | none => Except.error "KeyError: QualitiesRequired"
  | some reqs =>
    match d.QualitiesAffected with
    | none => Except.error "KeyError: QualitiesAffected"
    | some effs =>
      Except.ok
        { id := d.Id
        , requirements := reqs.map (Requirement.init lookup)
        , effects := effs.map (Effect.init lookup)
        , actions := (d.ChildBranches.getD []).map mkAction }

/-- The placeholder record built by the repair pass of SunlessSea.__init__
(lines 1740-1743): dict(Id=trigger, ChildBranches=[], QualitiesRequired=[]).
The QualitiesAffected key is not in the dict. -/
def dummyEventData (eid : Int) : EventData :=
  { Id := eid
  , ChildBranches := some []
  , QualitiesRequired := some []
  , QualitiesAffected := none }

/-- The state of Outcome.trigger: None, still the raw LinkToEvent id, or a
resolved Event object. -/
inductive Trigger where
  | missing : Trigger
  | raw : Int → Trigger
  | resolved : EventModel → Trigger
deriving DecidableEq

/-- The repair pass of SunlessSea.__init__ (lines 1728-1745) on one outcome
trigger: a non-int trigger is left alone; a raw id is looked up in the
events collection; on a miss a placeholder Event is constructed from
dummyEventData, and any exception of that construction propagates (there is
no try/except around the loop). -/
def repairTrigger (lookup : Int → Option Quality)
    (getEvent : Int → Option EventModel) : Trigger → Except String Trigger
  | Trigger.raw eid =>
    match getEvent eid with
    | some e => Except.ok (Trigger.resolved e)
    | none =>
      match Event.init lookup (dummyEventData eid) with
      | Except.ok e => Except.ok (Trigger.resolved e)
      | Except.error msg => Except.error msg
  | t => Except.ok t

/-- The JSON record of a ShopItem: the ids under Quality.Id and
PurchaseQuality.Id, and the optional Cost and SellPrice. -/
structure ShopItemData where
  QualityId : Int
  PurchaseQualityId : Int
  Cost : Option Int
  SellPrice : Option Int
deriving DecidableEq

/-- Model of a constructed ShopItem. -/
structure ShopItemModel where
  item : Option Quality
  currency : Option Quality
  buy : Int
  sell : Int
deriving DecidableEq

/-- ShopItem.__init__ (lines 670-676): item and currency come from
ss.qualities.get, which is dict.get with default None (Entities.get,
lines 1526-1528); there is no dummy fallback here. -/
def ShopItem.init (qualities : List (Int × Quality)) (d : ShopItemData) :
    ShopItemModel :=
  { item := dictGet qualities d.QualityId
  , currency := dictGet qualities d.PurchaseQualityId
  , buy := d.Cost.getD 0
  , sell := d.SellPrice.getD 0 }

/-- The _entities dict of a Qualities collection built from a list of
Quality objects (Entities.__init__ lines 1465-1481). -/
def qualitiesFromList (qs : List Quality) : List (Int × Quality) :=
  qs.foldl (fun d q => dictInsert d q.id q) []

/-- One entity as stored by Entities.__init__: its enumerate index (from 1)
and its id.  Distinct input records with the same id give distinct
entities distinguished by idx. -/
structure SSEntity where
  idx : Nat
  id : Int
deriving DecidableEq

/-- The two containers of Entities.__init__: the _entities dict keyed by id
and the _order list in insertion order. -/
structure EntitiesState where
  entities : List (Int × SSEntity)
  order : List SSEntity
deriving DecidableEq

/-- The construction loop of Entities.__init__ (lines 1472-1477): for each
record, in order, overwrite the dict binding at its id and append the
entity to _order. -/
def entitiesLoop : List Int → Nat → EntitiesState → EntitiesState
  | [], _, s => s
  | i :: rest, idx, s =>
    entitiesLoop rest (idx + 1)
      { entities := dictInsert s.entities i ⟨idx, i⟩
      , order := s.order ++ [⟨idx, i⟩] }

/-- Entities.__init__ from a list of record ids, enumerate starting at 1. -/
def entitiesInit (ids : List Int) : EntitiesState :=
  entitiesLoop ids 1 ⟨[], []⟩

/-- A requirement or effect as read by Quality.usage: only quality.id. -/
structure UQualOp where
  qualityId : Int
deriving DecidableEq

/-- An action as read by Quality.usage: its requirements and, per outcome,
the outcome effects. -/
structure UAction where
  requirements : List UQualOp
  outcomes : List (List UQualOp)
deriving DecidableEq

/-- An event as read by Quality.usage. -/
structure UEvent where
  requirements : List UQualOp
  effects : List UQualOp
  actions : List UAction
deriving DecidableEq

/-- The requirements loop of Quality.usage (lines 562-566 and 575-579): the
loop variable r is set to each requirement in turn; on the first
requirement matching qid the loop records it and breaks.  Returns the
final value of r and the recorded match. -/
def scanReqs (qid : Int) : List UQualOp → Option UQualOp →
    Option UQualOp × Option UQualOp
  | [], r => (r, none)
  | req :: rest, _ =>
    if req.qualityId = qid then (some req, some req)
    else scanReqs qid rest (some req)

/-- The effects loop of Quality.usage (lines 568-572): for f in e.effects the
code tests r.quality.id == qid, with r left over from the preceding
requirements loop.  When the loop body runs with r unbound this is a
NameError (Except.error).  The condition does not depend on f, so a
matching r records the first effect, a non-matching r records nothing. -/
def scanEffs (qid : Int) (effs : List UQualOp) (r : Option UQualOp) :
    Except Unit (Option UQualOp) :=
  match effs with
  | [] => Except.ok none
  | f :: _ =>
    match r with
    | none => Except.error ()
    | some req =>
      if req.qualityId = qid then Except.ok (some f) else Except.ok none

/-- The outcome loops of Quality.usage (lines 582-588): an outcome is
recorded when some of its effects matches qid. -/
def scanOutcomes (qid : Int) (outs : List (List UQualOp)) :
    List (List UQualOp) :=
  outs.filter (fun o => o.any (fun f => f.qualityId = qid))

/-- The actions loop of Quality.usage (lines 574-588): each action runs a
requirements loop that reuses the variable r, then the outcome loops; an
action entry is recorded when its requirement matched or some outcome did.
Returns the final r and the recorded action entries. -/
def scanActions (qid : Int) : List UAction → Option UQualOp →
    Option UQualOp × List (Option UQualOp × List (List UQualOp))
  | [], r => (r, [])
  | a :: rest, r =>
    let p := scanReqs qid a.requirements r
    let outs := scanOutcomes qid a.outcomes
    let tail := scanActions qid rest p.1
    (tail.1, (if p.2.isSome || !outs.isEmpty then [(p.2, outs)] else []) ++ tail.2)

/-- The per-event record results[e] of Quality.usage. -/
structure UsageRec where
  req : Option UQualOp
  eff : Option UQualOp
  act : List (Option UQualOp × List (List UQualOp))
deriving DecidableEq

/-- One iteration of the events loop of Quality.usage (lines 561-588),
threading the leaked loop variable r: requirements loop, effects loop
(which reads the stale r), actions loop.  The record is created only when
some section matched (setdefault is only called then). -/
def scanEvent (qid : Int) (e : UEvent) (r0 : Option UQualOp) :
    Except Unit (Option UsageRec × Option UQualOp) :=
  let p := scanReqs qid e.requirements r0
  match scanEffs qid e.effects p.1 with
  | Except.error u => Except.error u
  | Except.ok effM =>
    let q := scanActions qid e.actions p.1
    let touched := p.2.isSome || effM.isSome || !q.2.isEmpty
    Except.ok (if touched then some ⟨p.2, effM, q.2⟩ else none, q.1)

/-- The events loop of Quality.usage over a list of events, keying each
produced record by the position of its event in the list (Python keys the
results dict by the event object itself). -/
def usageGo (qid : Int) : List UEvent → Nat → Option UQualOp →
    Except Unit (List (Nat × UsageRec))
  | [], _, _ => Except.ok []
  | e :: rest, i, r =>
    match scanEvent qid e r with
    | Except.error u => Except.error u
    | Except.ok pr =>
      match usageGo qid rest (i + 1) pr.2 with
      | Except.error u => Except.error u
      | Except.ok tail =>
        Except.ok
          ((match pr.1 with
            | some rec0 => [(i, rec0)]
            | none => []) ++ tail)

/-- Quality.usage restricted to its events scan, starting with the loop
variable r unbound. -/
def usageScan (qid : Int) (events : List UEvent) :
    Except Unit (List (Nat × UsageRec)) :=
  usageGo qid events 0 none

/-- Concrete inputs used by the closed instances below. -/
def ctx0 : AdvCtx :=
  { lookup := fun _ => none
  , qfmt := fun _ => ['x']
  , dfmt := fun s => s
  , noqfmt := fun _ => []
  , qnamefmt := fun _ => [] }

/-- A quality with a requirement on quality 1: first event of the
C8 counterexample. -/
def uev1 : UEvent := ⟨[⟨1⟩], [], []⟩

/-- An event with no requirement and one effect on quality 2: second event
of the C8 counterexample. -/
def uev2 : UEvent := ⟨[], [⟨2⟩], []⟩

/-- Witness event for the amended C8 statement: one non-matching
requirement, one effect, one action whose outcome references quality 1. -/
def wev : UEvent := ⟨[⟨2⟩], [⟨1⟩], [⟨[], [[⟨1⟩]]⟩]⟩

/-- The record usageScan produces for wev. -/
def wrec : UsageRec := ⟨none, none, [(none, [[⟨1⟩]])]⟩

/-- Concrete quality for the C4 counterexample. -/
def gold : Quality := ⟨1, "Gold", 0, 0⟩

/-- Concrete quality for the C3 witness: scaler 60, not the luck category. -/
def ironQ : Quality := ⟨2, "Iron", 0, 60⟩

/-- Concrete quality for the C5 witness: scaler 0, not the luck category. -/
def pagesQ : Quality := ⟨3, "Pages", 0, 0⟩

/-- A fold whose step never changes the accumulator returns its initial value. -/
theorem foldl_fixed {α β : Type} (f : β → α → β) (l : List α) (init : β)
    (h : ∀ a ∈ l, ∀ acc, f acc a = acc) : l.foldl f init = init := by
  induction l generalizing init with
  | nil => rfl
  | cons a t ih =>
    rw [List.foldl_cons, h a (by simp)]
    exact ih init (fun x hx acc => h x (by simp [hx]) acc)

/-- Lookup after a Python dict assignment: the assigned key yields the new
value, every other key is unchanged. -/
theorem dictGet_dictInsert {α : Type} (d : List (Int × α)) (k j : Int) (v : α) :
    dictGet (dictInsert d k v) j = if j = k then some v else dictGet d j := by
  induction d with
  | nil =>
    by_cases h : j = k
    · subst h; simp [dictInsert, dictGet]
    · simp [dictInsert, dictGet, h, Ne.symm h]
  | cons p t ih =>
    obtain ⟨k', v'⟩ := p
    by_cases hk : k' = k
    · subst hk
      by_cases h : j = k'
      · subst h; simp [dictInsert, dictGet]
      · simp [dictInsert, dictGet, h, Ne.symm h]
    · by_cases h : k' = j
      · have hjk : ¬ j = k := fun hh => hk (h.trans hh)
        simp [dictInsert, dictGet, hk, h, hjk]
      · simp [dictInsert, dictGet, hk, h, ih]

/-- Key list after a Python dict assignment: unchanged when the key was
present, else the key is appended. -/
theorem map_fst_dictInsert {α : Type} (d : List (Int × α)) (k : Int) (v : α) :
    (dictInsert d k v).map Prod.fst =
      if k ∈ d.map Prod.fst then d.map Prod.fst else d.map Prod.fst ++ [k] := by
  induction d with
  | nil => simp [dictInsert]
  | cons p t ih =>
    obtain ⟨k', v'⟩ := p
    by_cases hk : k' = k
    · subst hk; simp [dictInsert]
    · by_cases hm : k ∈ t.map Prod.fst
      · simp [dictInsert, hk, ih, hm, Ne.symm hk]
      · simp [dictInsert, hk, ih, hm, Ne.symm hk]

/-- A dict lookup misses exactly when the key is absent. -/
theorem dictGet_ne_none_iff {α : Type} (d : List (Int × α)) (k : Int) :
    dictGet d k ≠ none ↔ k ∈ d.map Prod.fst := by
  induction d with
  | nil => simp [dictGet]
  | cons p t ih =>
    obtain ⟨k', v'⟩ := p
    by_cases h : k' = k
    · subst h; simp [dictGet]
    · simp [dictGet, h, ih, Ne.symm h]

/-- Membership in the key list of a dict built by folding dictInsert over
qualities. -/
theorem mem_keys_qualities_foldl (qs : List Quality) :
    ∀ (d : List (Int × Quality)) (k : Int),
      (k ∈ (qs.foldl (fun d q => dictInsert d q.id q) d).map Prod.fst) ↔
        k ∈ d.map Prod.fst ∨ k ∈ qs.map Quality.id := by
  induction qs with
  | nil => intro d k; simp
  | cons q t ih =>
    intro d k
    rw [List.foldl_cons, ih]
    rw [map_fst_dictInsert]
    by_cases h : q.id ∈ d.map Prod.fst
    · rw [if_pos h]
      simp only [List.map_cons, List.mem_cons]
      constructor
      · rintro (hd | ht)
        · exact Or.inl hd
        · exact Or.inr (Or.inr ht)
      · rintro (hd | he | ht)
        · exact Or.inl hd
        · exact Or.inl (he ▸ h)
        · exact Or.inr ht
    · rw [if_neg h]
      rw [List.mem_append]
      simp only [List.mem_singleton, List.map_cons, List.mem_cons]
      tauto

/-- Bool contains agrees with membership for strings. -/
theorem contains_eq_true_iff (l : List String) (a : String) :
    l.contains a = true ↔ a ∈ l := by
  rw [List.contains]; exact List.elem_iff

/-- Claim C1 (code_bug): an Outcome whose LinkToEvent id matches no loaded
event is claimed to end, after the repair pass of SunlessSea.__init__, with
a placeholder Event bearing that id and empty actions and requirements,
with no exception escaping.  In fact the placeholder record
dict(Id, ChildBranches: [], QualitiesRequired: []) lacks the
QualitiesAffected key that Event.__init__ reads unguarded through
_create_qualops, so the placeholder construction raises
KeyError: QualitiesAffected and the repair pass propagates it (shown here
for raw trigger id 999 against an empty events collection). -/
theorem c1_unresolved_trigger_raises :
    repairTrigger (fun _ => none) (fun _ => none) (Trigger.raw 999) =
      Except.error "KeyError: QualitiesAffected" ∧
    Event.init (fun _ => none) (dummyEventData 999) =
      Except.error "KeyError: QualitiesAffected" :=
  ⟨rfl, rfl⟩

/-- Claim C4, counterexample: with the non-empty Qualities collection built
from the single quality Gold (id 1), the ShopItem whose record references
Quality id 2 gets item = None, refuting that item and currency are always
real Quality objects whenever the Qualities collection is non-empty. -/
theorem c4_counterexample :
    qualitiesFromList [gold] ≠ [] ∧
    (ShopItem.init (qualitiesFromList [gold]) ⟨2, 1, none, none⟩).item = none := by
  constructor
  · intro h; cases h
  · rfl

/-- Claim C4, amended: a ShopItem's item (resp. currency) resolves to a
Quality object exactly when the id under its Quality.Id (resp.
PurchaseQuality.Id) key occurs among the ids of the loaded qualities;
otherwise the attribute is None, whether or not the collection is empty. -/
theorem c4_shopitem_resolution (qs : List Quality) (d : ShopItemData) :
    ((ShopItem.init (qualitiesFromList qs) d).item ≠ none ↔
      d.QualityId ∈ qs.map Quality.id) ∧
    ((ShopItem.init (qualitiesFromList qs) d).currency ≠ none ↔
      d.PurchaseQualityId ∈ qs.map Quality.id) := by
  constructor
  · show dictGet (qualitiesFromList qs) d.QualityId ≠ none ↔ _
    rw [dictGet_ne_none_iff, qualitiesFromList, mem_keys_qualities_foldl qs [] _]
    simp
  · show dictGet (qualitiesFromList qs) d.PurchaseQualityId ≠ none ↔ _
    rw [dictGet_ne_none_iff, qualitiesFromList, mem_keys_qualities_foldl qs [] _]
    simp

/-- Claim C6: the canfail flag of a constructed Action is true exactly when
the SuccessEvent slot key is present in the source record, equivalently
exactly when the constructed outcomes list contains the success slot. -/
theorem c6_canfail (keys : List String) :
    ((mkAction keys).canfail = true ↔ "SuccessEvent" ∈ keys) ∧
    ((mkAction keys).canfail = true ↔
      "SuccessEvent" ∈ (mkAction keys).outcomes) := by
  have h1 : (mkAction keys).canfail = keys.contains "SuccessEvent" := rfl
  constructor
  · rw [h1, contains_eq_true_iff]
  · rw [h1, contains_eq_true_iff]
    show _ ↔ "SuccessEvent" ∈ OUTCOME_TYPES.filter (fun t => keys.contains t)
    rw [List.mem_filter]
    simp [OUTCOME_TYPES, contains_eq_true_iff]

/-- Once DifficultyLevel was visited, the `value` variable is assigned: every
later step of the loop either keeps it or reassigns it, never unbinds it. -/
theorem reqFormatCore_value_isSome (lookup : Int → Option Quality)
    (q : Quality) (ops : ReqOps) (v : Int)
    (hd : ops.DifficultyLevel = some v) :
    (reqFormatCore lookup q ops).2.1 ≠ none := by
  obtain ⟨d, da, ml, ma, xl, xa⟩ := ops
  simp only at hd
  subst hd
  cases da <;> cases ml <;> cases ma <;> cases xl <;> cases xa <;>
    simp only [reqFormatCore] <;> (try split_ifs) <;> simp

/-- Claim C5, counterexample: quality Pages has difficultyScaler 0 and a
non-luck category; the Requirement with operators DifficultyLevel 5 and
MinLevel 3 renders the threshold value 3 in the challenge format, not the
raw DifficultyLevel value 5 the claim asserts (line 988 reassigns `value`
when the later MinLevel operator is visited).  No exception is raised. -/
theorem c5_counterexample :
    pagesQ.difficultyscaler = 0 ∧
    (reqFormatCore (fun _ => none) pagesQ
      ⟨some 5, none, some 3, none, none, none⟩).2.1 = some (PyVal.int 3) ∧
    reqFormat (fun _ => none) pagesQ
      ⟨some 5, none, some 3, none, none, none⟩ =
      Except.ok "Pages challenge (3 for 100%) and ≥ 3" ∧
    PyVal.int 3 ≠ PyVal.int 5 :=
  ⟨rfl, rfl, rfl, by decide⟩

/-- Claim C5, amended: with a DifficultyLevel operator on a non-luck quality
whose difficultyScaler is zero, Requirement._format never raises (the
guard `if value and difficultyscaler` skips the division, and `value` is
bound, so the final format call succeeds); and when no other operator of
_OPS co-occurs, the challenge format renders the raw DifficultyLevel value
unchanged.  (A co-occurring threshold operator reassigns the rendered
value at line 988: see the counterexample.) -/
theorem c5_zero_scaler (lookup : Int → Option Quality) (q : Quality)
    (ops : ReqOps) (v : Int)
    (hd : ops.DifficultyLevel = some v)
    (hs : q.difficultyscaler = 0) (hc : q.category ≠ 2000) :
    (∀ msg, reqFormat lookup q ops ≠ Except.error msg) ∧
    (ops.DifficultyAdvanced = none → ops.MinLevel = none →
     ops.MinAdvanced = none → ops.MaxLevel = none → ops.MaxAdvanced = none →
     (reqFormatCore lookup q ops).1 = MainFmt.cha ∧
     (reqFormatCore lookup q ops).2.1 = some (PyVal.int v) ∧
     reqFormat lookup q ops = Except.ok
       (Quality.ustr q ++ " challenge (" ++ toString v ++ " for 100%)")) := by
  constructor
  · intro msg hcontra
    rcases hv : (reqFormatCore lookup q ops).2.1 with _ | pv
    · exact absurd hv (reqFormatCore_value_isSome lookup q ops v hd)
    · simp only [reqFormat, hv] at hcontra
      exact Except.noConfusion hcontra
  · intro h1 h2 h3 h4 h5
    have hcore : reqFormatCore lookup q ops =
        (MainFmt.cha, some (PyVal.int v), []) := by
      simp [reqFormatCore, hd, h1, h2, h3, h4, h5, hs, hc]
    have hint : String.intercalate " and " ([] : List String) = "" := rfl
    refine ⟨by rw [hcore], by rw [hcore], ?_⟩
    simp only [reqFormat, hcore, hint, List.isEmpty_nil, if_true, pyValStr,
      String.append_empty]

/-- Claim C5, witness at a concrete input: quality Pages with scaler 0 and a
Requirement holding only DifficultyLevel 5 formats without an exception
and renders the raw value 5. -/
theorem c5_witness :
    (∀ msg, reqFormat (fun _ => none) pagesQ
      ⟨some 5, none, none, none, none, none⟩ ≠ Except.error msg) ∧
    ((⟨some 5, none, none, none, none, none⟩ : ReqOps).DifficultyAdvanced =
        none →
     (⟨some 5, none, none, none, none, none⟩ : ReqOps).MinLevel = none →
     (⟨some 5, none, none, none, none, none⟩ : ReqOps).MinAdvanced = none →
     (⟨some 5, none, none, none, none, none⟩ : ReqOps).MaxLevel = none →
     (⟨some 5, none, none, none, none, none⟩ : ReqOps).MaxAdvanced = none →
     (reqFormatCore (fun _ => none) pagesQ
       ⟨some 5, none, none, none, none, none⟩).1 = MainFmt.cha ∧
     (reqFormatCore (fun _ => none) pagesQ
       ⟨some 5, none, none, none, none, none⟩).2.1 = some (PyVal.int 5) ∧
     reqFormat (fun _ => none) pagesQ
       ⟨some 5, none, none, none, none, none⟩ = Except.ok
       (Quality.ustr pagesQ ++ " challenge (" ++ toString (5 : Int) ++
         " for 100%)")) :=
  c5_zero_scaler (fun _ => none) pagesQ
    ⟨some 5, none, none, none, none, none⟩ 5 rfl rfl (by decide)

/-- Claim C3, counterexample: quality Iron (category 0, scaler 60); the
Requirement with operators DifficultyLevel 100 and MinLevel 3 renders the
threshold value 3 in the challenge format, although ceil(100 * 100 / 60)
is 167: the later-visited MinLevel reassigns `value` (line 988) after the
difficulty conversion, so the claim's conversion formula is not what ends
up rendered when a threshold operator co-occurs. -/
theorem c3_counterexample :
    ironQ.difficultyscaler = 60 ∧ ironQ.category ≠ 2000 ∧
    (reqFormatCore (fun _ => none) ironQ
      ⟨some 100, none, some 3, none, none, none⟩).2.1 = some (PyVal.int 3) ∧
    reqFormat (fun _ => none) ironQ
      ⟨some 100, none, some 3, none, none, none⟩ =
      Except.ok "Iron challenge (3 for 100%) and ≥ 3" ∧
    ceilDiv (100 * 100) ironQ.difficultyscaler = 167 ∧
    PyVal.int 3 ≠ PyVal.int 167 :=
  ⟨rfl, by decide, rfl, rfl, by decide, by decide⟩

/-- Claim C3, amended: for a Requirement whose only operator among _OPS is
DifficultyLevel with value v, on a quality with non-zero difficultyScaler
s, the rendered challenge value is the integer ceil(100 * v / s) when the
category is not the luck category 2000, and 50 - v * s when it is.  When
another _OPS operator co-occurs, the loop reassigns the rendered `value`
(line 988) to that later operator's raw value, so the conversion result is
discarded: see the counterexample. -/
theorem c3_difficulty_value (lookup : Int → Option Quality) (q : Quality)
    (ops : ReqOps) (v : Int)
    (hd : ops.DifficultyLevel = some v)
    (ha : ops.DifficultyAdvanced = none) (hm1 : ops.MinLevel = none)
    (hm2 : ops.MinAdvanced = none) (hx1 : ops.MaxLevel = none)
    (hx2 : ops.MaxAdvanced = none) (hs : q.difficultyscaler ≠ 0) :
    (reqFormatCore lookup q ops).1 =
      (if q.category = 2000 then MainFmt.chaluck else MainFmt.cha) ∧
    (reqFormatCore lookup q ops).2.1 = some (PyVal.int
      (if q.category = 2000 then 50 - v * q.difficultyscaler
       else ceilDiv (100 * v) q.difficultyscaler)) ∧
    reqFormat lookup q ops = Except.ok
      (Quality.ustr q ++ " challenge (" ++
        toString (if q.category = 2000 then 50 - v * q.difficultyscaler
          else ceilDiv (100 * v) q.difficultyscaler) ++
        (if q.category = 2000 then "%)" else " for 100%)")) := by
  have hint : String.intercalate " and " ([] : List String) = "" := rfl
  have hval : (if v ≠ 0 ∧ q.difficultyscaler ≠ 0 then
      ceilDiv (100 * v) q.difficultyscaler else v) =
      ceilDiv (100 * v) q.difficultyscaler := by
    by_cases hv : v = 0
    · subst hv
      simp [ceilDiv, Int.zero_fdiv]
    · rw [if_pos ⟨hv, hs⟩]
  by_cases hc : q.category = 2000
  · have hcore : reqFormatCore lookup q ops =
        (MainFmt.chaluck, some (PyVal.int (50 - v * q.difficultyscaler)), []) := by
      simp [reqFormatCore, hd, ha, hm1, hm2, hx1, hx2, hc]
    refine ⟨by rw [hcore]; simp [hc], by rw [hcore]; simp [hc], ?_⟩
    simp only [reqFormat, hcore, hint, List.isEmpty_nil, if_true, pyValStr,
      String.append_empty, if_pos hc]
  · have hcore : reqFormatCore lookup q ops =
        (MainFmt.cha,
         some (PyVal.int (ceilDiv (100 * v) q.difficultyscaler)), []) := by
      simp [reqFormatCore, hd, ha, hm1, hm2, hx1, hx2, hc, hval]
    refine ⟨by rw [hcore]; simp [hc], by rw [hcore]; simp [hc], ?_⟩
    simp only [reqFormat, hcore, hint, List.isEmpty_nil, if_true, pyValStr,
      String.append_empty, if_neg hc]

/-- Claim C3, witness at a concrete input: quality Iron (category 0, scaler
60) with only DifficultyLevel 100 renders ceil(10000 / 60) = 167. -/
theorem c3_witness :
    (reqFormatCore (fun _ => none) ironQ
      ⟨some 100, none, none, none, none, none⟩).1 =
      (if ironQ.category = 2000 then MainFmt.chaluck else MainFmt.cha) ∧
    (reqFormatCore (fun _ => none) ironQ
      ⟨some 100, none, none, none, none, none⟩).2.1 = some (PyVal.int
      (if ironQ.category = 2000 then 50 - 100 * ironQ.difficultyscaler
       else ceilDiv (100 * 100) ironQ.difficultyscaler)) ∧
    reqFormat (fun _ => none) ironQ
      ⟨some 100, none, none, none, none, none⟩ = Except.ok
      (Quality.ustr ironQ ++ " challenge (" ++
        toString (if ironQ.category = 2000 then
          50 - 100 * ironQ.difficultyscaler
          else ceilDiv (100 * 100) ironQ.difficultyscaler) ++
        (if ironQ.category = 2000 then "%)" else " for 100%)")) :=
  c3_difficulty_value (fun _ => none) ironQ
    ⟨some 100, none, none, none, none, none⟩ 100 rfl rfl rfl rfl rfl rfl
    (by decide)

/-- Grounding of ceilDiv as the true ceiling: for a positive divisor, the
result is the least integer at least a / b. -/
theorem ceilDiv_spec (a b : Int) (hb : 0 < b) :
    b * (ceilDiv a b - 1) < a ∧ a ≤ b * ceilDiv a b := by
  have hmod := Int.fdiv_add_fmod (-a) b
  have h0 : 0 ≤ (-a).fmod b := Int.fmod_nonneg' (-a) (by omega)
  have h1 : (-a).fmod b < b := Int.fmod_lt_of_pos (-a) hb
  unfold ceilDiv
  constructor <;> nlinarith [hmod, h0, h1]

/-- Claim C2: for a Requirement whose operator mapping holds both MinLevel
and MaxLevel (and no advanced threshold operators), the formatter emits
exactly one clause "= m" when the values are equal, exactly one clause
"= m or mx" when mx = m + 1, and otherwise a standalone "≥ m" clause
followed by a separate "≤ mx" clause. -/
theorem c2_min_max_merge (lookup : Int → Option Quality) (q : Quality)
    (ops : ReqOps) (m mx : Int)
    (hmin : ops.MinLevel = some m) (hmax : ops.MaxLevel = some mx)
    (hma : ops.MinAdvanced = none) (hxa : ops.MaxAdvanced = none) :
    (reqFormatCore lookup q ops).2.2 =
      if mx = m then [eqfmt m]
      else if mx = m + 1 then [adjfmt m mx]
      else [minfmt m, maxfmt mx] := by
  by_cases h1 : mx = m
  · simp [reqFormatCore, hmin, hmax, hma, hxa, h1]
  · by_cases h2 : mx = m + 1
    · simp [reqFormatCore, hmin, hmax, hma, hxa, h1, h2]
    · simp [reqFormatCore, hmin, hmax, hma, hxa, h1, h2]

/-- Claim C2, witness at concrete inputs: MinLevel 3 with MaxLevel 3 gives
the single clause eqfmt 3. -/
theorem c2_witness :
    (reqFormatCore (fun _ => none) ironQ
      ⟨none, none, some 3, none, some 3, none⟩).2.2 =
      (if (3 : Int) = 3 then [eqfmt 3]
       else if (3 : Int) = 3 + 1 then [adjfmt 3 3]
       else [minfmt 3, maxfmt 3]) :=
  c2_min_max_merge (fun _ => none) ironQ
    ⟨none, none, some 3, none, some 3, none⟩ 3 3 rfl rfl rfl rfl

/-- Count of an element of a duplicate-free list after a filter: one when
the predicate holds, zero otherwise. -/
theorem count_filter_of_nodup {α : Type} [DecidableEq α] (p : α → Bool) :
    ∀ (l : List α), l.Nodup → ∀ t ∈ l,
      (l.filter p).count t = if p t then 1 else 0 := by
  intro l
  induction l with
  | nil => simp
  | cons a tl ih =>
    intro hnd t ht
    rw [List.nodup_cons] at hnd
    rcases List.mem_cons.mp ht with rfl | htl
    · have hnotin : t ∉ tl.filter p :=
        fun hmem => hnd.1 (List.mem_of_mem_filter hmem)
      by_cases hp : p t
      · rw [List.filter_cons_of_pos hp, if_pos hp, List.count_cons_self,
          List.count_eq_zero.mpr hnotin]
      · rw [List.filter_cons_of_neg hp, if_neg hp,
          List.count_eq_zero.mpr hnotin]
    · have hta : t ≠ a := fun h => hnd.1 (h ▸ htl)
      by_cases hp : p a
      · rw [List.filter_cons_of_pos hp, List.count_cons_of_ne hta,
          ih hnd.2 t htl]
      · rw [List.filter_cons_of_neg hp, ih hnd.2 t htl]

/-- Claim C7: from any record key set, the constructed outcomes list is a
sublist of the fixed priority order _OUTCOME_TYPES, holds exactly one
entry per outcome slot whose key is present (and none for an absent slot),
and is unchanged under any permutation of the record's keys. -/
theorem c7_outcome_order (keys1 keys2 : List String) (hp : keys1.Perm keys2) :
    List.Sublist (mkAction keys1).outcomes OUTCOME_TYPES ∧
    (∀ t ∈ OUTCOME_TYPES,
      (mkAction keys1).outcomes.count t = if t ∈ keys1 then 1 else 0) ∧
    (mkAction keys1).outcomes = (mkAction keys2).outcomes := by
  refine ⟨List.filter_sublist _, ?_, ?_⟩
  · intro t ht
    have h1 := count_filter_of_nodup (fun u => keys1.contains u)
      OUTCOME_TYPES (by decide) t ht
    show (OUTCOME_TYPES.filter (fun u => keys1.contains u)).count t = _
    rw [h1]
    by_cases hm : t ∈ keys1
    · rw [if_pos (contains_eq_true_iff keys1 t |>.mpr hm), if_pos hm]
    · rw [if_neg hm, if_neg]
      intro hc
      exact hm (contains_eq_true_iff keys1 t |>.mp hc)
  · show OUTCOME_TYPES.filter (fun u => keys1.contains u) =
      OUTCOME_TYPES.filter (fun u => keys2.contains u)
    apply List.filter_congr
    intro a _
    by_cases hm : a ∈ keys1
    · rw [contains_eq_true_iff keys1 a |>.mpr hm,
        contains_eq_true_iff keys2 a |>.mpr (hp.mem_iff.mp hm)]
    · have hm2 : a ∉ keys2 := fun h => hm (hp.mem_iff.mpr h)
      rw [Bool.eq_iff_iff, contains_eq_true_iff, contains_eq_true_iff]
      exact ⟨fun h => absurd h hm, fun h => absurd h hm2⟩

/-- Claim C7, witness at concrete inputs: the key lists
[SuccessEvent, DefaultEvent] and its permutation
[DefaultEvent, SuccessEvent] give the same outcomes, in priority order. -/
theorem c7_witness :
    List.Sublist (mkAction ["SuccessEvent", "DefaultEvent"]).outcomes
      OUTCOME_TYPES ∧
    (∀ t ∈ OUTCOME_TYPES,
      (mkAction ["SuccessEvent", "DefaultEvent"]).outcomes.count t =
        if t ∈ ["SuccessEvent", "DefaultEvent"] then 1 else 0) ∧
    (mkAction ["SuccessEvent", "DefaultEvent"]).outcomes =
      (mkAction ["DefaultEvent", "SuccessEvent"]).outcomes :=
  c7_outcome_order ["SuccessEvent", "DefaultEvent"]
    ["DefaultEvent", "SuccessEvent"]
    (List.Perm.swap "DefaultEvent" "SuccessEvent" [])

/-- Iteration order of an Entities collection: the ids of the _order list
are the input record ids, in input order, whatever state the loop starts
from. -/
theorem entitiesLoop_order_ids (ids : List Int) :
    ∀ (idx : Nat) (s : EntitiesState),
      (entitiesLoop ids idx s).order.map SSEntity.id =
        s.order.map SSEntity.id ++ ids := by
  induction ids with
  | nil => intro idx s; simp [entitiesLoop]
  | cons i t ih =>
    intro idx s
    show (entitiesLoop t (idx + 1) _).order.map SSEntity.id = _
    rw [ih]
    simp

/-- Key membership in the _entities dict built by the Entities loop. -/
theorem entitiesLoop_keys_mem (ids : List Int) :
    ∀ (idx : Nat) (s : EntitiesState) (k : Int),
      (k ∈ (entitiesLoop ids idx s).entities.map Prod.fst) ↔
        k ∈ s.entities.map Prod.fst ∨ k ∈ ids := by
  induction ids with
  | nil => intro idx s k; simp [entitiesLoop]
  | cons i t ih =>
    intro idx s k
    show (k ∈ (entitiesLoop t (idx + 1) _).entities.map Prod.fst) ↔ _
    rw [ih]
    show (k ∈ (dictInsert s.entities i _).map Prod.fst ∨ _) ↔ _
    rw [map_fst_dictInsert]
    by_cases h : i ∈ s.entities.map Prod.fst
    · rw [if_pos h]
      simp only [List.mem_cons]
      constructor
      · rintro (hd | ht)
        · exact Or.inl hd
        · exact Or.inr (Or.inr ht)
      · rintro (hd | he | ht)
        · exact Or.inl hd
        · exact Or.inl (he ▸ h)
        · exact Or.inr ht
    · rw [if_neg h]
      rw [List.mem_append]
      simp only [List.mem_singleton, List.mem_cons]
      tauto

/-- The _entities dict built by the Entities loop has duplicate-free keys. -/
theorem entitiesLoop_keys_nodup (ids : List Int) :
    ∀ (idx : Nat) (s : EntitiesState),
      (s.entities.map Prod.fst).Nodup →
      ((entitiesLoop ids idx s).entities.map Prod.fst).Nodup := by
  induction ids with
  | nil => intro idx s h; exact h
  | cons i t ih =>
    intro idx s h
    show ((entitiesLoop t (idx + 1) _).entities.map Prod.fst).Nodup
    apply ih
    show ((dictInsert s.entities i _).map Prod.fst).Nodup
    rw [map_fst_dictInsert]
    by_cases hm : i ∈ s.entities.map Prod.fst
    · rwa [if_pos hm]
    · rw [if_neg hm, List.nodup_append]
      exact ⟨h, List.nodup_singleton i,
        fun a ha hai => hm ((List.mem_singleton.mp hai) ▸ ha)⟩

/-- Lookup in the _entities dict agrees with the last matching entity of the
_order list, provided it does in the starting state. -/
theorem entitiesLoop_get (ids : List Int) :
    ∀ (idx : Nat) (s : EntitiesState),
      (∀ j, dictGet s.entities j = s.order.reverse.find? (fun e => e.id == j)) →
      ∀ j, dictGet (entitiesLoop ids idx s).entities j =
        (entitiesLoop ids idx s).order.reverse.find? (fun e => e.id == j) := by
  induction ids with
  | nil => intro idx s h j; exact h j
  | cons i t ih =>
    intro idx s h j
    show dictGet (entitiesLoop t (idx + 1) _).entities j = _
    apply ih
    intro j'
    rw [dictGet_dictInsert, List.reverse_append]
    show _ = List.find? _ (⟨idx, i⟩ :: s.order.reverse)
    by_cases hji : j' = i
    · subst hji
      rw [if_pos rfl, List.find?_cons_of_pos]
      simp
    · rw [if_neg hji, List.find?_cons_of_neg, h j']
      simp [Ne.symm hji]

/-- Claim C9: building an Entities collection from record ids among which
some id repeats, len (the size of the _entities dict) is the number of
distinct ids, iteration (the _order list) yields one entity per input
record in insertion order, hence len is strictly smaller than the number
of iterated entities, and get returns the most recently inserted entity
bearing the requested id. -/
theorem c9_duplicate_ids (ids : List Int) (hdup : ¬ ids.Nodup) :
    (entitiesInit ids).entities.length = ids.toFinset.card ∧
    (entitiesInit ids).order.map SSEntity.id = ids ∧
    (entitiesInit ids).entities.length < (entitiesInit ids).order.length ∧
    ∀ k, dictGet (entitiesInit ids).entities k =
      (entitiesInit ids).order.reverse.find? (fun e => e.id == k) := by
  have hmem : ∀ k, k ∈ (entitiesInit ids).entities.map Prod.fst ↔ k ∈ ids := by
    intro k
    rw [entitiesInit, entitiesLoop_keys_mem ids 1 ⟨[], []⟩ k]
    simp
  have hnodup : ((entitiesInit ids).entities.map Prod.fst).Nodup := by
    rw [entitiesInit]
    exact entitiesLoop_keys_nodup ids 1 ⟨[], []⟩ (by simp)
  have horder : (entitiesInit ids).order.map SSEntity.id = ids := by
    rw [entitiesInit, entitiesLoop_order_ids ids 1 ⟨[], []⟩]
    simp
  have hfin : ((entitiesInit ids).entities.map Prod.fst).toFinset =
      ids.toFinset := by
    apply Finset.ext
    intro a
    rw [List.mem_toFinset, List.mem_toFinset, hmem]
  have hlen : (entitiesInit ids).entities.length = ids.toFinset.card := by
    have h1 : (entitiesInit ids).entities.length =
        ((entitiesInit ids).entities.map Prod.fst).length := by
      rw [List.length_map]
    rw [h1, ← List.toFinset_card_of_nodup hnodup, hfin]
  have holen : (entitiesInit ids).order.length = ids.length := by
    have := congrArg List.length horder
    rwa [List.length_map] at this
  refine ⟨hlen, horder, ?_, ?_⟩
  · rw [hlen, holen, List.card_toFinset]
    have hle : ids.dedup.length ≤ ids.length := (List.dedup_sublist ids).length_le
    have hne : ids.dedup.length ≠ ids.length := by
      intro hEq
      exact hdup (List.dedup_eq_self.mp ((List.dedup_sublist ids).eq_of_length hEq))
    omega
  · rw [entitiesInit]
    exact entitiesLoop_get ids 1 ⟨[], []⟩ (by intro j; simp [dictGet])

/-- Claim C9, witness at a concrete input: record ids [1, 2, 1] hold a
duplicate; the collection has len 2, iterates 3 entities, and get 1 yields
the most recently inserted entity with id 1. -/
theorem c9_witness :
    (entitiesInit [1, 2, 1]).entities.length =
      ([1, 2, 1] : List Int).toFinset.card ∧
    (entitiesInit [1, 2, 1]).order.map SSEntity.id = [1, 2, 1] ∧
    (entitiesInit [1, 2, 1]).entities.length <
      (entitiesInit [1, 2, 1]).order.length ∧
    ∀ k, dictGet (entitiesInit [1, 2, 1]).entities k =
      (entitiesInit [1, 2, 1]).order.reverse.find? (fun e => e.id == k) :=
  c9_duplicate_ids [1, 2, 1] (by decide)

/-- Claim C8, counterexample: quality 1; the first event has a requirement
on quality 1 (so the leaked loop variable r holds that requirement); the
second event has no requirements at all (so every requirement of it
references a quality other than 1, vacuously) and one effect on quality 2.
The scan still reports the second event under eff (with that effect),
because the stale r from the first event matches: the claim's statement
that such an event is never reported under eff is false. -/
theorem c8_counterexample :
    uev2.requirements = [] ∧
    usageScan 1 [uev1, uev2] =
      Except.ok [(0, ⟨some ⟨1⟩, none, []⟩), (1, ⟨none, some ⟨2⟩, []⟩)] ∧
    (⟨none, some ⟨2⟩, []⟩ : UsageRec).eff ≠ none :=
  ⟨rfl, rfl, by decide⟩

/-- A requirements loop over a nonempty list none of whose entries matches
records no match and leaves r holding one of the list's entries. -/
theorem scanReqs_no_match (qid : Int) :
    ∀ (reqs : List UQualOp) (r0 : Option UQualOp),
      reqs ≠ [] → (∀ q ∈ reqs, q.qualityId ≠ qid) →
      (scanReqs qid reqs r0).2 = none ∧
      ∃ q, q ∈ reqs ∧ (scanReqs qid reqs r0).1 = some q := by
  intro reqs
  induction reqs with
  | nil => intro r0 h; exact absurd rfl h
  | cons q tl ih =>
    intro r0 _ hall
    have hq : q.qualityId ≠ qid := hall q (List.mem_cons_self q tl)
    cases tl with
    | nil =>
      refine ⟨?_, q, List.mem_cons_self q [], ?_⟩ <;>
        simp [scanReqs, hq]
    | cons q2 tl2 =>
      have step : scanReqs qid (q :: q2 :: tl2) r0 =
          scanReqs qid (q2 :: tl2) (some q) := by
        simp [scanReqs, hq]
      obtain ⟨h1, q3, hq3, h2⟩ := ih (some q) (by simp)
        (fun x hx => hall x (List.mem_cons_of_mem q hx))
      exact ⟨by rw [step]; exact h1,
        q3, List.mem_cons_of_mem q hq3, by rw [step]; exact h2⟩

/-- The effects loop never records a match when the stale r holds a
requirement whose quality differs from the scanned quality. -/
theorem scanEffs_no_match (qid : Int) (effs : List UQualOp) (q : UQualOp)
    (hq : q.qualityId ≠ qid) : scanEffs qid effs (some q) = Except.ok none := by
  cases effs with
  | nil => rfl
  | cons f tl => simp [scanEffs, hq]

/-- An event with a nonempty requirements list none of whose entries
references the scanned quality can never be recorded with eff set. -/
theorem scanEvent_eff_none (qid : Int) (e : UEvent) (r0 : Option UQualOp)
    (hne : e.requirements ≠ []) (hall : ∀ q ∈ e.requirements, q.qualityId ≠ qid)
    (recO : Option UsageRec) (r' : Option UQualOp)
    (h : scanEvent qid e r0 = Except.ok (recO, r'))
    (rec0 : UsageRec) (hrec : recO = some rec0) : rec0.eff = none := by
  obtain ⟨hm, q, hqmem, hr1⟩ := scanReqs_no_match qid e.requirements r0 hne hall
  rw [scanEvent, hr1, scanEffs_no_match qid e.effects q (hall q hqmem), hm] at h
  subst hrec
  simp only [Option.isSome_none, Option.isSome_some, Bool.false_or,
    Except.ok.injEq, Prod.mk.injEq] at h
  obtain ⟨h1, h2⟩ := h
  split at h1
  · cases h1
    rfl
  · cases h1

/-- Every key produced by the events loop from start index i is at least i. -/
theorem usageGo_index_ge (qid : Int) :
    ∀ (events : List UEvent) (i : Nat) (r : Option UQualOp)
      (res : List (Nat × UsageRec)),
      usageGo qid events i r = Except.ok res →
      ∀ k rec0, (k, rec0) ∈ res → i ≤ k := by
  intro events
  induction events with
  | nil =>
    intro i r res h k rec0 hmem
    rw [usageGo] at h
    cases h
    cases hmem
  | cons e tl ih =>
    intro i r res h k rec0 hmem
    rw [usageGo] at h
    split at h
    · cases h
    · rename_i pr hse
      split at h
      · cases h
      · rename_i tail htl
        cases h
        rcases List.mem_append.mp hmem with hh | ht
        · split at hh
          · rename_i rec1 hpr
            rcases List.mem_singleton.mp hh with h'
            cases h'
            exact Nat.le_refl i
          · cases hh
        · exact Nat.le_of_succ_le (ih (i + 1) pr.2 tail htl k rec0 ht)

/-- Events-loop version of the amended C8 statement, generalized over the
start index and the threaded stale r. -/
theorem usageGo_eff_stale (qid : Int) :
    ∀ (events : List UEvent) (i : Nat) (r : Option UQualOp)
      (res : List (Nat × UsageRec)),
      usageGo qid events i r = Except.ok res →
      ∀ (j : Nat) (e : UEvent) (rec0 : UsageRec),
        events.get? j = some e →
        e.requirements ≠ [] →
        (∀ q ∈ e.requirements, q.qualityId ≠ qid) →
        (i + j, rec0) ∈ res → rec0.eff = none := by
  intro events
  induction events with
  | nil =>
    intro i r res h j e rec0 hj
    cases hj
  | cons e0 tl ih =>
    intro i r res h j e rec0 hj hne hall hmem
    rw [usageGo] at h
    split at h
    · cases h
    · rename_i pr hse
      split at h
      · cases h
      · rename_i tail htl
        cases h
        rcases List.mem_append.mp hmem with hh | ht
        · split at hh
          · rename_i rec1 hpr
            rcases List.mem_singleton.mp hh with h'
            cases j with
            | zero =>
              have he : e0 = e := Option.some.inj hj
              have hr : rec0 = rec1 := congrArg Prod.snd h'
              subst hr
              subst he
              exact scanEvent_eff_none qid e0 r hne hall pr.1 pr.2
                (by rw [hse]) rec0 hpr
            | succ j' =>
              have hk : i + (j' + 1) = i := congrArg Prod.fst h'
              omega
          · cases hh
        · cases j with
          | zero =>
            have hk := usageGo_index_ge qid tl (i + 1) pr.2 tail htl
              (i + 0) rec0 ht
            omega
          | succ j' =>
            have hj' : tl.get? j' = some e := hj
            exact ih (i + 1) pr.2 tail htl j' e rec0 hj' hne hall
              (by
                have harith : i + (j' + 1) = (i + 1) + j' := by omega
                rw [harith] at ht
                exact ht)

/-- Claim C8, amended: whether an event is reported under eff is decided by
the quality of the most recently examined requirement (the loop variable
left over from the preceding requirements loop); consequently, for every
quality q and every event with at least one requirement, all of whose
requirements reference qualities other than q, the usage scan does not
report that event under eff even when one of the event's own effects
references q.  (An event with no requirements at all can still be reported
under eff through the stale variable: see the counterexample.) -/
theorem c8_eff_stale_requirement (qid : Int) (events : List UEvent)
    (res : List (Nat × UsageRec)) (h : usageScan qid events = Except.ok res)
    (j : Nat) (e : UEvent) (rec0 : UsageRec)
    (hj : events.get? j = some e) (hne : e.requirements ≠ [])
    (hall : ∀ q ∈ e.requirements, q.qualityId ≠ qid)
    (hmem : (j, rec0) ∈ res) : rec0.eff = none := by
  have := usageGo_eff_stale qid events 0 none res h j e rec0 hj hne hall
  apply this
  simpa using hmem

/-- Claim C8, witness at a concrete input: the event wev has a requirement
on quality 2 only; scanning for quality 1 records it (through its outcome)
with eff not set. -/
theorem c8_witness : wrec.eff = none :=
  c8_eff_stale_requirement 1 [wev] [(0, wrec)] rfl 0 wev wrec
    rfl (by decide) (by decide) (by decide)

/-- Claim C10: in Entity._parse_adv a matched token whose computed
substitution is None or the empty string is not substituted (the guard
`if subst:`); in particular when every matched token of a text computes an
empty (or absent) substitution, the output equals the input and every
token is left verbatim. -/
theorem c10_empty_subst (ctx : AdvCtx) (text : List Char)
    (h : ∀ m ∈ findMatches text,
      tokenSubst text.length ctx m.key m.val = none ∨
      tokenSubst text.length ctx m.key m.val = some []) :
    parseAdv ctx text = text := by
  rw [parseAdv]
  show (findMatches text).foldl
    (fun result m =>
      match tokenSubstCore (parseAdvAux text.length ctx) ctx m.key m.val with
      | some s => if s.isEmpty then result else replace1 result m.str s
      | none => result)
    text = text
  apply foldl_fixed
  intro m hm acc
  rcases h m hm with h0 | h0
  · simp only [tokenSubst] at h0
    rw [h0]
  · simp only [tokenSubst] at h0
    rw [h0]
    rfl

/-- Claim C10, witness at a concrete input: the text [q:abc] holds one
matched token; with a qnamefmt template rendering the empty string the
output is the input, token left verbatim. -/
theorem c10_witness :
    (∀ m ∈ findMatches ("[q:abc]".toList),
      tokenSubst ("[q:abc]".toList).length ctx0 m.key m.val = none ∨
      tokenSubst ("[q:abc]".toList).length ctx0 m.key m.val = some []) ∧
    parseAdv ctx0 ("[q:abc]".toList) = "[q:abc]".toList :=
  ⟨by decide, c10_empty_subst ctx0 ("[q:abc]".toList) (by decide)⟩

end SunlessSea
